import Mathlib

/-!
# Verification of the Event-Calendar recurrence and conflict engine

Shallow embedding of `src/utils/dateUtils.js` and `src/utils/eventUtils.js`.

Modelling conventions:
* A JavaScript `Date` holding a valid instant is modelled as a `DateTime`:
  a civil date (year, month, day, Gregorian calendar, local time) together
  with the minutes elapsed since local midnight.  Timestamp comparison of
  JS `Date` values corresponds to comparison of `DateTime.toAbsMin`
  (minutes since the epoch of year 0).  DST irregularities are out of scope
  (the spec declares the system timezone-naive).
* date-fns `addDays`/`addWeeks` advance the civil date by calendar days;
  `addMonths` advances the month and clamps the day-of-month to the end of
  the target month; `addYears n` is `addMonths (12*n)`; `startOfDay` zeroes
  the time-of-day.  These library functions are embedded below.
* A stored date *string* is modelled by `DateStr`: either a string that
  date-fns `parseISO` accepts, denoting a civil day (events store
  `yyyy-MM-dd` day-only strings), or a malformed string that `parseISO`
  rejects (an invalid `Date`).
* `new Date()` (the wall clock) is passed around as an explicit `now`
  parameter; JS functions reading the clock become functions of `now`.
-/

/-- Gregorian leap-year test. -/
def isLeap (y : Nat) : Bool :=
  (y % 4 == 0 && y % 100 != 0) || y % 400 == 0

/-- The extra day a leap year contributes. -/
def leapAdj (y : Nat) : Nat :=
  if isLeap y then 1 else 0

/-- Number of days in month `m` of year `y` (months are 1-based). -/
def daysInMonth (y m : Nat) : Nat :=
  match m with
  | 2 => 28 + leapAdj y
  | 4 => 30
  | 6 => 30
  | 9 => 30
  | 11 => 30
  | _ => 31

/-- Number of days in year `y`. -/
def daysInYear (y : Nat) : Nat :=
  365 + leapAdj y

/-- Days of year `y` that precede the first day of month `m`.
The out-of-range argument 13 conveniently yields a full year. -/
def daysBeforeMonth (y m : Nat) : Nat :=
  match m with
  | 1 => 0
  | 2 => 31
  | 3 => 59 + leapAdj y
  | 4 => 90 + leapAdj y
  | 5 => 120 + leapAdj y
  | 6 => 151 + leapAdj y
  | 7 => 181 + leapAdj y
  | 8 => 212 + leapAdj y
  | 9 => 243 + leapAdj y
  | 10 => 273 + leapAdj y
  | 11 => 304 + leapAdj y
  | 12 => 334 + leapAdj y
  | _ => 365 + leapAdj y

/-- Days in the years `0, 1, …, y-1` (closed formula counting leap years). -/
def daysBeforeYear (y : Nat) : Nat :=
  365 * y + (y + 3) / 4 - (y + 99) / 100 + (y + 399) / 400

/-- A valid JS `Date` value: civil date plus minutes since local midnight. -/
structure DateTime where
  year : Nat
  month : Nat
  day : Nat
  mins : Nat
  deriving DecidableEq, Repr

namespace DateTime

/-- The civil fields denote an actual calendar date and a time of day. -/
def Valid (x : DateTime) : Prop :=
  1 ≤ x.month ∧ x.month ≤ 12 ∧ 1 ≤ x.day ∧ x.day ≤ daysInMonth x.year x.month ∧
    x.mins < 1440

instance (x : DateTime) : Decidable x.Valid := by
  unfold Valid; infer_instance

/-- Day number of the civil date (days since 0000-01-01). -/
def toDays (x : DateTime) : Nat :=
  daysBeforeYear x.year + daysBeforeMonth x.year x.month + (x.day - 1)

/-- Minutes since the epoch; JS `Date` timestamp order coincides with
`toAbsMin` order. -/
def toAbsMin (x : DateTime) : Nat :=
  1440 * x.toDays + x.mins

/-- Timestamp comparison `a < b` of two JS dates. -/
abbrev dlt (a b : DateTime) : Prop := a.toAbsMin < b.toAbsMin

/-- Timestamp comparison `a ≤ b` of two JS dates. -/
abbrev dle (a b : DateTime) : Prop := a.toAbsMin ≤ b.toAbsMin

/-- date-fns `startOfDay`: same civil date at local midnight. -/
def startOfDay (x : DateTime) : DateTime :=
  { x with mins := 0 }

/-- The calendar successor of a civil date (time of day preserved). -/
def nextDay (x : DateTime) : DateTime :=
  if x.day < daysInMonth x.year x.month then { x with day := x.day + 1 }
  else if x.month < 12 then { x with month := x.month + 1, day := 1 }
  else { x with year := x.year + 1, month := 1, day := 1 }

/-- date-fns `addDays` (non-negative amounts, the only ones the engine uses). -/
def addDays (x : DateTime) : Nat → DateTime
  | 0 => x
  | n + 1 => nextDay (addDays x n)

/-- date-fns `addWeeks`. -/
def addWeeks (x : DateTime) (n : Nat) : DateTime :=
  addDays x (7 * n)

/-- date-fns `addMonths`: advance the month, clamp the day-of-month into the
target month (e.g. Jan 31 + 1 month = Feb 28/29). -/
def addMonths (x : DateTime) (n : Nat) : DateTime :=
  let mi := x.month - 1 + n
  let y := x.year + mi / 12
  let m := mi % 12 + 1
  { x with year := y, month := m, day := min x.day (daysInMonth y m) }

/-- date-fns `addYears` (clamps Feb 29 to Feb 28 on non-leap targets). -/
def addYears (x : DateTime) (n : Nat) : DateTime :=
  addMonths x (12 * n)

/-- date-fns `isSameDay`: same civil calendar day, time ignored. -/
def isSameDay (a b : DateTime) : Bool :=
  a.year == b.year && a.month == b.month && a.day == b.day

end DateTime

open DateTime

/-- JS `interval || 1`: `0` (and `undefined`, not representable here) is
falsy and becomes `1`; every other number is kept. -/
def jsOr (i : Int) : Int :=
  if i = 0 then 1 else i

/-- `Math.max(1, Math.min(interval || 1, 365))` from `generateRecurringDates`
(line 145 of dateUtils.js).  The result is always in `[1, 365]`, so it is
returned as a `Nat`. -/
def safeInterval (interval : Int) : Nat :=
  (max 1 (min (jsOr interval) 365)).toNat

/-- The `while (currentDate < maxDate && iterations < maxIterations)` loop of
`generateRecurringDates`, for a recognized pattern whose `switch` arm advances
the cursor by `step`.  `fuel` is the number of iterations still allowed
(initially `maxIterations = 1000`); after the advance the new cursor is
appended (normalized to midnight) when it is still `≤ maxDate`. -/
def genLoop (step : DateTime → DateTime) (maxDate : DateTime) :
    Nat → DateTime → List DateTime
  | 0, _ => []
  | fuel + 1, currentDate =>
    if dlt currentDate maxDate then
      if dle (step currentDate) maxDate then
        startOfDay (step currentDate) ::
          genLoop step maxDate fuel (step currentDate)
      else
        genLoop step maxDate fuel (step currentDate)
    else []

/-- Number of loop iterations `genLoop` actually executes (the final value of
the source's `iterations` counter), capped by the available fuel. -/
def genIters (step : DateTime → DateTime) (maxDate : DateTime) :
    Nat → DateTime → Nat
  | 0, _ => 0
  | fuel + 1, currentDate =>
    if dlt currentDate maxDate then
      genIters step maxDate fuel (step currentDate) + 1
    else 0

/-- `endDate && isValid(endDate) ? endDate : addYears(startDate, 1)` (line 144
of dateUtils.js): `none` stands for an absent or invalid `endDate`. -/
def effectiveHorizon (startDate : DateTime) (endDate : Option DateTime) :
    DateTime :=
  match endDate with
  | some e => e
  | none => addYears startDate 1

/-- The `switch (pattern)` arm executed on each loop iteration: advance the
cursor by `k` days, weeks or months. Only evaluated for recognized patterns. -/
def stepOf (pattern : String) (k : Nat) : DateTime → DateTime := fun c =>
  if pattern = "daily" then addDays c k
  else if pattern = "weekly" then addWeeks c k
  else addMonths c k

/-- `generateRecurringDates(startDate, pattern, interval, endDate)` from
dateUtils.js, for a valid `startDate` (an invalid JS `Date` is not
representable as a `DateTime`; the source returns `[]` for it).
For an unrecognized pattern the `switch`'s `default` arm returns the
accumulated list — always just `[startOfDay startDate]`, whether the loop
was entered or not. -/
def generateRecurringDates (startDate : DateTime) (pattern : String)
    (interval : Int) (endDate : Option DateTime) : List DateTime :=
  let maxDate := effectiveHorizon startDate endDate
  let k := safeInterval interval
  if pattern = "daily" ∨ pattern = "weekly" ∨ pattern = "monthly" then
    startOfDay startDate :: genLoop (stepOf pattern k) maxDate 1000 startDate
  else
    [startOfDay startDate]

/-- A stored date string, as far as date-fns `parseISO` is concerned: either
a parseable day-only string (the app stores `yyyy-MM-dd`) denoting the civil
day `(y, m, d)`, or a malformed string that parses to an invalid `Date`. -/
inductive DateStr where
  | valid (y m d : Nat)
  | malformed
  deriving DecidableEq, Repr

/-- `parseDate(dateString)` from dateUtils.js: `parseISO` the string; if the
result is a valid date return it, otherwise return `new Date()` — the current
wall-clock instant, passed here explicitly as `now`.  Note the fallback means
`parseDate` *never* yields an invalid date. -/
def parseDate (s : DateStr) (now : DateTime) : DateTime :=
  match s with
  | .valid y m d => ⟨y, m, d, 0⟩
  | .malformed => now

/-- An event record, with the fields the engine reads.  `startTime`/`endTime`
are time strings: `some t` is a well-formed `HH:mm` string worth `t` minutes,
`none` a string with which `new Date(date + 'T' + time)` cannot form a valid
instant. -/
structure Event where
  id : String
  date : DateStr
  startTime : Option Nat
  endTime : Option Nat
  recurring : Bool
  recurrencePattern : String
  recurrenceInterval : Int
  deriving DecidableEq, Repr

/-- `new Date(`${dateString}T${timeString}`)`: a valid instant exactly when
the date string is a parseable day and the time string is well-formed. -/
def combineDT : DateStr → Option Nat → Option DateTime
  | DateStr.valid y m d, some t => some ⟨y, m, d, t⟩
  | _, _ => none

/-- The filter predicate of `getEventsForDate` (eventUtils.js lines 9-29).
The source's `isValid(eventStartDate)` guard is dead code: `parseDate` always
returns a valid date (falling back to `new Date()`). -/
def occursPred (event : Event) (date now : DateTime) : Bool :=
  if event.recurring && event.recurrencePattern != "none" then
    let eventStartDate := parseDate event.date now
    let recurringDates := generateRecurringDates eventStartDate
      event.recurrencePattern (jsOr event.recurrenceInterval) none
    recurringDates.any fun recurringDate => isSameDay recurringDate date
  else
    isSameDay (parseDate event.date now) date

/-- `getEventsForDate(events, date)` from eventUtils.js, for a valid `date`
argument (the source returns `[]` when `date` is invalid or `events` is not
an array). -/
def getEventsForDate (events : List Event) (date : DateTime)
    (now : DateTime) : List Event :=
  events.filter fun event => occursPred event date now

/-- The filter predicate of `checkEventConflicts` (eventUtils.js lines 45-65).
The `isValid(eventDate) || isValid(newEventDate)` guard is dead code for the
same reason as in `occursPred`. -/
def conflictPred (newEvent : Event) (newStart newEnd now : DateTime)
    (event : Event) : Bool :=
  if event.id == newEvent.id then false
  else
    let eventDate := parseDate event.date now
    let newEventDate := parseDate newEvent.date now
    if !isSameDay eventDate newEventDate then false
    else
      match combineDT event.date event.startTime,
          combineDT event.date event.endTime with
      | some existingStart, some existingEnd =>
        decide (dlt newStart existingEnd) && decide (dlt existingStart newEnd)
      | _, _ => false

/-- `checkEventConflicts(newEvent, existingEvents)` from eventUtils.js. -/
def checkEventConflicts (newEvent : Event) (existingEvents : List Event)
    (now : DateTime) : List Event :=
  match combineDT newEvent.date newEvent.startTime,
      combineDT newEvent.date newEvent.endTime with
  | some newStart, some newEnd =>
    existingEvents.filter (conflictPred newEvent newStart newEnd now)
  | _, _ => []

/-! ## Calendar arithmetic lemmas -/

theorem isLeap_iff (y : Nat) :
    isLeap y = true ↔ ((y % 4 = 0 ∧ ¬y % 100 = 0) ∨ y % 400 = 0) := by
  simp [isLeap]

theorem leapAdj_eq (y : Nat) :
    (isLeap y = true ∧ leapAdj y = 1) ∨ (¬isLeap y = true ∧ leapAdj y = 0) := by
  unfold leapAdj
  by_cases h : isLeap y = true
  · exact Or.inl ⟨h, if_pos h⟩
  · exact Or.inr ⟨h, if_neg h⟩

theorem leapAdj_le (y : Nat) : leapAdj y ≤ 1 := by
  rcases leapAdj_eq y with ⟨_, h⟩ | ⟨_, h⟩ <;> omega

theorem daysInMonth_pos (y m : Nat) : 1 ≤ daysInMonth y m := by
  unfold daysInMonth; split <;> omega

theorem daysInMonth_le (y m : Nat) : daysInMonth y m ≤ 31 := by
  have := leapAdj_le y
  unfold daysInMonth; split <;> omega

theorem leapAdj_char (y : Nat) :
    (leapAdj y = 1 ∧ ((y % 4 = 0 ∧ ¬y % 100 = 0) ∨ y % 400 = 0)) ∨
      (leapAdj y = 0 ∧ ¬((y % 4 = 0 ∧ ¬y % 100 = 0) ∨ y % 400 = 0)) := by
  rcases leapAdj_eq y with ⟨hl, h⟩ | ⟨hl, h⟩
  · exact Or.inl ⟨h, (isLeap_iff y).mp hl⟩
  · exact Or.inr ⟨h, fun hc => hl ((isLeap_iff y).mpr hc)⟩

set_option maxHeartbeats 1600000 in
theorem daysBeforeYear_succ (y : Nat) :
    daysBeforeYear (y + 1) = daysBeforeYear y + daysInYear y := by
  have h := leapAdj_char y
  unfold daysBeforeYear daysInYear
  rcases h with ⟨h1, h2⟩ | ⟨h1, h2⟩ <;> rw [h1] <;> omega

theorem daysBeforeYear_mono {a b : Nat} (h : a ≤ b) :
    daysBeforeYear a ≤ daysBeforeYear b := by
  induction b, h using Nat.le_induction with
  | base => exact Nat.le_refl _
  | succ b _ ih =>
    calc daysBeforeYear a ≤ daysBeforeYear b := ih
    _ ≤ _ := by rw [daysBeforeYear_succ]; omega

theorem daysBeforeMonth_succ (y : Nat) {m : Nat} (h1 : 1 ≤ m) (h2 : m ≤ 12) :
    daysBeforeMonth y (m + 1) = daysBeforeMonth y m + daysInMonth y m := by
  interval_cases m <;> simp only [daysBeforeMonth, daysInMonth] <;> omega

theorem daysBeforeMonth_year (y : Nat) :
    daysBeforeMonth y 13 = daysInYear y := by
  simp only [daysBeforeMonth, daysInYear]

theorem daysBeforeMonth_le (y m : Nat) : daysBeforeMonth y m ≤ 366 := by
  have := leapAdj_le y
  unfold daysBeforeMonth; split <;> omega

theorem daysBeforeMonth_mono (y : Nat) {a b : Nat} (h1 : 1 ≤ a) (h : a ≤ b)
    (h13 : b ≤ 13) : daysBeforeMonth y a ≤ daysBeforeMonth y b := by
  induction b, h using Nat.le_induction with
  | base => exact Nat.le_refl _
  | succ b hab ih =>
    calc daysBeforeMonth y a ≤ daysBeforeMonth y b := ih (by omega)
    _ ≤ _ := by rw [daysBeforeMonth_succ y (by omega) (by omega)]; omega

namespace DateTime

theorem toDays_mk (y m d mins : Nat) :
    toDays ⟨y, m, d, mins⟩ = daysBeforeYear y + daysBeforeMonth y m + (d - 1) :=
  rfl

theorem toAbsMin_def (x : DateTime) : toAbsMin x = 1440 * x.toDays + x.mins :=
  rfl

theorem Valid_mk (y m d mins : Nat) :
    (⟨y, m, d, mins⟩ : DateTime).Valid ↔
      1 ≤ m ∧ m ≤ 12 ∧ 1 ≤ d ∧ d ≤ daysInMonth y m ∧ mins < 1440 :=
  Iff.rfl

theorem nextDay_mk (y m d mins : Nat) :
    nextDay ⟨y, m, d, mins⟩ =
      if d < daysInMonth y m then ⟨y, m, d + 1, mins⟩
      else if m < 12 then ⟨y, m + 1, 1, mins⟩
      else ⟨y + 1, 1, 1, mins⟩ :=
  rfl

theorem addMonths_mk (y m d mins n : Nat) :
    addMonths ⟨y, m, d, mins⟩ n =
      ⟨y + (m - 1 + n) / 12, (m - 1 + n) % 12 + 1,
        min d (daysInMonth (y + (m - 1 + n) / 12) ((m - 1 + n) % 12 + 1)),
        mins⟩ :=
  rfl

theorem mins_startOfDay (x : DateTime) : (startOfDay x).mins = 0 := rfl

theorem toDays_startOfDay (x : DateTime) : (startOfDay x).toDays = x.toDays :=
  rfl

theorem dle_startOfDay (x : DateTime) : dle (startOfDay x) x := by
  simp only [dle, toAbsMin_def, toDays_startOfDay, mins_startOfDay]; omega

theorem valid_nextDay {x : DateTime} (hv : x.Valid) : (nextDay x).Valid := by
  obtain ⟨y, m, d, mins⟩ := x
  rw [Valid_mk] at hv
  obtain ⟨h1, h2, h3, h4, h5⟩ := hv
  rw [nextDay_mk]
  split_ifs with hd hm
  · exact (Valid_mk ..).mpr ⟨h1, h2, by omega, by omega, h5⟩
  · exact (Valid_mk ..).mpr
      ⟨by omega, by omega, by omega, daysInMonth_pos _ _, h5⟩
  · exact (Valid_mk ..).mpr
      ⟨by omega, by omega, by omega, daysInMonth_pos _ _, h5⟩

theorem mins_nextDay (x : DateTime) : (nextDay x).mins = x.mins := by
  obtain ⟨y, m, d, mins⟩ := x
  rw [nextDay_mk]
  split_ifs <;> rfl

theorem toDays_nextDay {x : DateTime} (hv : x.Valid) :
    (nextDay x).toDays = x.toDays + 1 := by
  obtain ⟨y, m, d, mins⟩ := x
  rw [Valid_mk] at hv
  obtain ⟨h1, h2, h3, h4, h5⟩ := hv
  rw [nextDay_mk]
  split_ifs with hd hm
  · rw [toDays_mk, toDays_mk]; omega
  · rw [toDays_mk, toDays_mk, daysBeforeMonth_succ y h1 h2]; omega
  · have hm12 : m = 12 := by omega
    subst hm12
    rw [toDays_mk, toDays_mk, daysBeforeYear_succ]
    have h13 : daysBeforeMonth y 13 = daysBeforeMonth y 12 + daysInMonth y 12 :=
      daysBeforeMonth_succ y (by omega) (le_refl 12)
    have hy13 := daysBeforeMonth_year y
    have hb1 : daysBeforeMonth (y + 1) 1 = 0 := rfl
    have hd12 : daysInMonth y 12 = 31 := rfl
    omega

theorem valid_addDays {x : DateTime} (hv : x.Valid) (n : Nat) :
    (addDays x n).Valid := by
  induction n with
  | zero => exact hv
  | succ n ih => exact valid_nextDay ih

theorem toDays_addDays {x : DateTime} (hv : x.Valid) (n : Nat) :
    (addDays x n).toDays = x.toDays + n := by
  induction n with
  | zero => rfl
  | succ n ih =>
    show (nextDay (addDays x n)).toDays = _
    rw [toDays_nextDay (valid_addDays hv n), ih]
    omega

theorem mins_addDays (x : DateTime) (n : Nat) :
    (addDays x n).mins = x.mins := by
  induction n with
  | zero => rfl
  | succ n ih =>
    show (nextDay (addDays x n)).mins = _
    rw [mins_nextDay, ih]

theorem valid_addMonths {x : DateTime} (hv : x.Valid) (n : Nat) :
    (addMonths x n).Valid := by
  obtain ⟨y, m, d, mins⟩ := x
  rw [Valid_mk] at hv
  obtain ⟨h1, h2, h3, h4, h5⟩ := hv
  rw [addMonths_mk]
  refine (Valid_mk ..).mpr ⟨by omega, by omega, ?_, Nat.min_le_right _ _, h5⟩
  have := daysInMonth_pos (y + (m - 1 + n) / 12) ((m - 1 + n) % 12 + 1)
  omega

theorem mins_addMonths (x : DateTime) (n : Nat) :
    (addMonths x n).mins = x.mins := rfl

/-- Month-index comparison decides day-number comparison, whatever the
days-of-month involved. -/
theorem toDays_lt_of_month_lt {x1 x2 : DateTime} (hv1 : x1.Valid)
    (hv2 : x2.Valid)
    (h : 12 * x1.year + x1.month < 12 * x2.year + x2.month) :
    x1.toDays < x2.toDays := by
  obtain ⟨y1, m1, d1, mins1⟩ := x1
  obtain ⟨y2, m2, d2, mins2⟩ := x2
  rw [Valid_mk] at hv1 hv2
  obtain ⟨ha1, ha2, ha3, ha4, _⟩ := hv1
  obtain ⟨hb1, hb2, hb3, hb4, _⟩ := hv2
  simp only at h
  rw [toDays_mk, toDays_mk]
  have hup : daysBeforeYear y1 + daysBeforeMonth y1 m1 + (d1 - 1) <
      daysBeforeYear y1 + daysBeforeMonth y1 (m1 + 1) := by
    rw [daysBeforeMonth_succ y1 ha1 ha2]
    omega
  rcases Nat.lt_or_ge y1 y2 with hy | hy
  · have hmono : daysBeforeMonth y1 (m1 + 1) ≤ daysBeforeMonth y1 13 :=
      daysBeforeMonth_mono y1 (by omega) (by omega) (by omega)
    rw [daysBeforeMonth_year] at hmono
    have hysucc := daysBeforeYear_succ y1
    have hymono : daysBeforeYear (y1 + 1) ≤ daysBeforeYear y2 :=
      daysBeforeYear_mono (by omega)
    omega
  · have hyy : y1 = y2 := by omega
    subst hyy
    have hmono : daysBeforeMonth y1 (m1 + 1) ≤ daysBeforeMonth y1 m2 :=
      daysBeforeMonth_mono y1 (by omega) (by omega) (by omega)
    omega

theorem toDays_addMonths_lt {x : DateTime} (hv : x.Valid) {n : Nat}
    (hn : 1 ≤ n) : x.toDays < (addMonths x n).toDays := by
  have h1 := hv.1
  apply toDays_lt_of_month_lt hv (valid_addMonths hv n)
  obtain ⟨y, m, d, mins⟩ := x
  rw [addMonths_mk]
  simp only at *
  omega

/-- Loose upper bound: one calendar year never spans more than 732 day
numbers (366 for the year itself plus slack from the month tables). -/
theorem toDays_addMonths_twelve_le {x : DateTime} (hv : x.Valid) :
    (addMonths x 12).toDays ≤ x.toDays + 732 := by
  obtain ⟨y, m, d, mins⟩ := x
  rw [Valid_mk] at hv
  obtain ⟨h1, h2, h3, h4, h5⟩ := hv
  rw [addMonths_mk, toDays_mk, toDays_mk]
  have hdiv : (m - 1 + 12) / 12 = 1 := by omega
  rw [hdiv, daysBeforeYear_succ]
  have h366 : daysInYear y ≤ 366 := by
    unfold daysInYear; have := leapAdj_le y; omega
  have hbm := daysBeforeMonth_le (y + 1) ((m - 1 + 12) % 12 + 1)
  have hmin : min d (daysInMonth (y + 1) ((m - 1 + 12) % 12 + 1)) ≤ d :=
    Nat.min_le_left _ _
  omega

end DateTime

/-! ## Loop and step lemmas -/

namespace DateTime

theorem sod_dlt_sod {a b : DateTime} (h : a.toDays < b.toDays) :
    dlt (startOfDay a) (startOfDay b) := by
  simp only [dlt, toAbsMin_def, toDays_startOfDay, mins_startOfDay]
  omega

theorem valid_addWeeks {x : DateTime} (hv : x.Valid) (n : Nat) :
    (addWeeks x n).Valid := valid_addDays hv (7 * n)

theorem toDays_addWeeks {x : DateTime} (hv : x.Valid) (n : Nat) :
    (addWeeks x n).toDays = x.toDays + 7 * n := toDays_addDays hv (7 * n)

theorem mins_addWeeks (x : DateTime) (n : Nat) :
    (addWeeks x n).mins = x.mins := mins_addDays x (7 * n)

end DateTime

theorem safeInterval_pos (i : Int) : 1 ≤ safeInterval i := by
  unfold safeInterval jsOr
  split_ifs <;> omega

theorem safeInterval_of_nonpos {i : Int} (h : i ≤ 0) : safeInterval i = 1 := by
  unfold safeInterval jsOr
  split_ifs <;> omega

theorem safeInterval_one : safeInterval 1 = 1 := by decide

theorem safeInterval_big : safeInterval 10000 = 365 := by decide

theorem safeInterval_365 : safeInterval 365 = 365 := by decide

/-- Every `switch` arm advances the cursor: validity is preserved, the civil
day strictly increases, and the time of day is untouched. -/
theorem stepOf_spec (pat : String) {k : Nat} (hk : 1 ≤ k) {z : DateTime}
    (hz : z.Valid) :
    (stepOf pat k z).Valid ∧ z.toDays < (stepOf pat k z).toDays ∧
      (stepOf pat k z).mins = z.mins := by
  unfold stepOf
  split_ifs
  · exact ⟨valid_addDays hz k, by rw [toDays_addDays hz k]; omega,
      mins_addDays z k⟩
  · exact ⟨valid_addWeeks hz k, by rw [toDays_addWeeks hz k]; omega,
      mins_addWeeks z k⟩
  · exact ⟨valid_addMonths hz k, toDays_addMonths_lt hz hk, mins_addMonths z k⟩

theorem stepOf_absMin (pat : String) {k : Nat} (hk : 1 ≤ k) {z : DateTime}
    (hz : z.Valid) : z.toAbsMin + 1440 ≤ (stepOf pat k z).toAbsMin := by
  obtain ⟨_, hlt, hm⟩ := stepOf_spec pat hk hz
  rw [toAbsMin_def, toAbsMin_def, hm]
  omega

theorem genLoop_nil {step : DateTime → DateTime} {maxD cur : DateTime}
    (h : ¬dlt cur maxD) (fuel : Nat) : genLoop step maxD fuel cur = [] := by
  cases fuel <;> simp [genLoop, h]

/-- Everything the loop appends is `≤ maxDate`: pushes are guarded by
`currentDate <= maxDate` and midnight-normalization only moves back. -/
theorem mem_genLoop_dle {step : DateTime → DateTime} {maxD : DateTime} :
    ∀ fuel cur x, x ∈ genLoop step maxD fuel cur → dle x maxD := by
  intro fuel
  induction fuel with
  | zero => intro cur x hx; simp [genLoop] at hx
  | succ n ih =>
    intro cur x hx
    simp only [genLoop] at hx
    split_ifs at hx with h1 h2
    · rcases List.mem_cons.mp hx with hx | hx
      · subst hx
        exact Nat.le_trans (dle_startOfDay (step cur)) h2
      · exact ih (step cur) x hx
    · exact ih (step cur) x hx
    · simp at hx

theorem genLoop_length_le {step : DateTime → DateTime} {maxD : DateTime} :
    ∀ fuel cur, (genLoop step maxD fuel cur).length ≤ fuel := by
  intro fuel
  induction fuel with
  | zero => intro cur; simp [genLoop]
  | succ n ih =>
    intro cur
    simp only [genLoop]
    split_ifs
    · simpa using Nat.succ_le_succ (ih (step cur))
    · exact Nat.le_trans (ih (step cur)) (Nat.le_succ n)
    · simp

/-- The dates the loop emits strictly ascend from the (midnight-normalized)
cursor, provided each step strictly advances the civil day. -/
theorem genLoop_chain {step : DateTime → DateTime} {maxD : DateTime}
    (hs : ∀ z, z.Valid → (step z).Valid ∧ z.toDays < (step z).toDays) :
    ∀ fuel cur, cur.Valid →
      List.Chain dlt (startOfDay cur) (genLoop step maxD fuel cur) := by
  intro fuel
  induction fuel with
  | zero => intro cur _; simp only [genLoop]; exact List.Chain.nil
  | succ n ih =>
    intro cur hv
    simp only [genLoop]
    split_ifs with h1 h2
    · exact List.Chain.cons (sod_dlt_sod (hs cur hv).2)
        (ih (step cur) (hs cur hv).1)
    · rw [genLoop_nil (fun hlt => h2 (Nat.le_of_lt hlt))]
      exact List.Chain.nil
    · exact List.Chain.nil

/-- Iteration-count bound: when each step advances the cursor by at least a
day, the loop runs at most `(maxD - cur) / day + 1` times (in minutes). -/
theorem genIters_le {step : DateTime → DateTime} {maxD : DateTime}
    (hs : ∀ z, z.Valid → (step z).Valid ∧
      z.toAbsMin + 1440 ≤ (step z).toAbsMin) :
    ∀ fuel cur, cur.Valid →
      genIters step maxD fuel cur ≤
        (maxD.toAbsMin + 1439 - cur.toAbsMin) / 1440 := by
  intro fuel
  induction fuel with
  | zero => intro cur _; simp [genIters]
  | succ n ih =>
    intro cur hv
    simp only [genIters]
    split_ifs with h1
    · have h2 := (hs cur hv).2
      have h3 := ih (step cur) (hs cur hv).1
      have h4 : cur.toAbsMin < maxD.toAbsMin := h1
      omega
    · omega

/-! ## Shared helper lemmas for the claim theorems -/

instance : IsTrans DateTime dlt :=
  ⟨fun _ _ _ => Nat.lt_trans⟩

theorem dlt_ne {a b : DateTime} (h : dlt a b) : a ≠ b := by
  intro he
  rw [he] at h
  exact Nat.lt_irrefl _ h

theorem sod_dle_addYears {d : DateTime} (hv : d.Valid) :
    dle (startOfDay d) (addYears d 1) := by
  show 1440 * (startOfDay d).toDays + (startOfDay d).mins ≤
    1440 * (addMonths d 12).toDays + (addMonths d 12).mins
  rw [toDays_startOfDay, mins_startOfDay]
  have := @toDays_addMonths_lt d hv 12 (by omega)
  omega

theorem toAbsMin_addYears_le {d : DateTime} (hv : d.Valid) :
    (addYears d 1).toAbsMin ≤ d.toAbsMin + 1440 * 732 := by
  show (addMonths d 12).toAbsMin ≤ _
  rw [toAbsMin_def, toAbsMin_def, mins_addMonths]
  have := toDays_addMonths_twelve_le hv
  omega

theorem parseDate_valid (y m d : Nat) (now : DateTime) :
    parseDate (DateStr.valid y m d) now = ⟨y, m, d, 0⟩ := rfl

theorem parseDate_malformed (now : DateTime) :
    parseDate DateStr.malformed now = now := rfl

/-! ## Claim theorems -/

/-- C8: for every valid anchor date, interval and horizon, a pattern outside
{daily, weekly, monthly} makes `generateRecurringDates` return exactly the
one-element list holding the anchor normalized to midnight, without failing. -/
theorem c8_unknown_pattern (d : DateTime) (pat : String) (i : Int)
    (hz : Option DateTime) (hv : d.Valid) (h1 : pat ≠ "daily")
    (h2 : pat ≠ "weekly") (h3 : pat ≠ "monthly") :
    generateRecurringDates d pat i hz = [startOfDay d] := by
  simp [generateRecurringDates, h1, h2, h3]

/-- C8 witness: the spec's own example, `expand(d, 'bogus', 3, h)`. -/
theorem c8_unknown_pattern_witness :
    generateRecurringDates ⟨2024, 1, 10, 0⟩ "bogus" 3 (some ⟨2024, 6, 1, 0⟩) =
      [⟨2024, 1, 10, 0⟩] :=
  c8_unknown_pattern ⟨2024, 1, 10, 0⟩ "bogus" 3 (some ⟨2024, 6, 1, 0⟩)
    (by decide) (by decide) (by decide) (by decide)

/-- C7: interval clamping is behavior-preserving at the boundaries: interval
`0` (and any non-positive interval) yields the same output as interval `1`,
and interval `10000` yields the same output as interval `365`. -/
theorem c7_interval_clamping (d : DateTime) (hz : Option DateTime) (i : Int)
    (hv : d.Valid) (hi : i ≤ 0) :
    generateRecurringDates d "daily" i hz =
        generateRecurringDates d "daily" 1 hz ∧
      generateRecurringDates d "daily" 10000 hz =
        generateRecurringDates d "daily" 365 hz := by
  constructor
  · unfold generateRecurringDates
    rw [safeInterval_of_nonpos hi, safeInterval_one]
  · unfold generateRecurringDates
    rw [safeInterval_big, safeInterval_365]

/-- C7 witness at interval 0 against interval 1 (and 10000 against 365). -/
theorem c7_interval_clamping_witness :
    (⟨2024, 1, 10, 0⟩ : DateTime).Valid ∧
    (generateRecurringDates ⟨2024, 1, 10, 0⟩ "daily" 0 (some ⟨2024, 1, 20, 0⟩) =
        generateRecurringDates ⟨2024, 1, 10, 0⟩ "daily" 1
          (some ⟨2024, 1, 20, 0⟩) ∧
      generateRecurringDates ⟨2024, 1, 10, 0⟩ "daily" 10000
          (some ⟨2024, 1, 20, 0⟩) =
        generateRecurringDates ⟨2024, 1, 10, 0⟩ "daily" 365
          (some ⟨2024, 1, 20, 0⟩)) :=
  ⟨by decide,
    c7_interval_clamping ⟨2024, 1, 10, 0⟩ (some ⟨2024, 1, 20, 0⟩) 0
      (by decide) (by decide)⟩

/-- C4: for every valid anchor and all pattern/interval/horizon arguments the
expansion is non-empty, starts with the anchor normalized to midnight, is
strictly increasing in timestamp order, and has no duplicates (including the
monthly pattern with its month-end clamping). -/
theorem c4_expand_ordered (d : DateTime) (pat : String) (i : Int)
    (hz : Option DateTime) (hv : d.Valid) :
    generateRecurringDates d pat i hz ≠ [] ∧
      (generateRecurringDates d pat i hz).head? = some (startOfDay d) ∧
      List.Pairwise dlt (generateRecurringDates d pat i hz) ∧
      (generateRecurringDates d pat i hz).Nodup := by
  have hstep : ∀ z : DateTime, z.Valid →
      (stepOf pat (safeInterval i) z).Valid ∧
        z.toDays < (stepOf pat (safeInterval i) z).toDays := by
    intro z hzv
    obtain ⟨a, b, _⟩ := stepOf_spec pat (safeInterval_pos i) hzv
    exact ⟨a, b⟩
  unfold generateRecurringDates
  split_ifs with hp
  · have hchain := @genLoop_chain _ (effectiveHorizon d hz) hstep 1000 d hv
    have hpw := List.chain_iff_pairwise.mp hchain
    exact ⟨by simp, by simp, hpw, hpw.imp fun h => dlt_ne h⟩
  · exact ⟨by simp, by simp, by simp, by simp⟩

/-- C4 witness: monthly expansion from a month-end anchor. -/
theorem c4_expand_ordered_witness :
    generateRecurringDates ⟨2024, 1, 31, 90⟩ "monthly" 1 none ≠ [] ∧
      (generateRecurringDates ⟨2024, 1, 31, 90⟩ "monthly" 1 none).head? =
        some ⟨2024, 1, 31, 0⟩ ∧
      List.Pairwise dlt (generateRecurringDates ⟨2024, 1, 31, 90⟩ "monthly" 1 none) ∧
      (generateRecurringDates ⟨2024, 1, 31, 90⟩ "monthly" 1 none).Nodup :=
  c4_expand_ordered ⟨2024, 1, 31, 90⟩ "monthly" 1 none (by decide)

/-- C3 counterexample: with a valid caller-supplied horizon that lies before
the anchor, the output (which always contains the anchor) exceeds the
horizon, so "every element is ≤ the effective horizon" fails as stated. -/
theorem c3_counterexample :
    (⟨2024, 1, 10, 0⟩ : DateTime).Valid ∧ (⟨2024, 1, 5, 0⟩ : DateTime).Valid ∧
      ¬(∀ x ∈ generateRecurringDates ⟨2024, 1, 10, 0⟩ "daily" 1
          (some ⟨2024, 1, 5, 0⟩), dle x ⟨2024, 1, 5, 0⟩) := by
  decide

/-- C3 (amended): every element after the anchor is ≤ the effective horizon;
the anchor itself is also ≤ the horizon whenever the horizon is not earlier
than the anchor's midnight, and in particular the bound holds for the whole
output under the default one-year horizon. -/
theorem c3_horizon_amended (d : DateTime) (pat : String) (i : Int)
    (hz : Option DateTime) (hv : d.Valid) :
    (∀ x ∈ (generateRecurringDates d pat i hz).tail,
        dle x (effectiveHorizon d hz)) ∧
      (dle (startOfDay d) (effectiveHorizon d hz) →
        ∀ x ∈ generateRecurringDates d pat i hz,
          dle x (effectiveHorizon d hz)) ∧
      (hz = none →
        ∀ x ∈ generateRecurringDates d pat i hz,
          dle x (effectiveHorizon d hz)) := by
  unfold generateRecurringDates
  split_ifs with hp
  · refine ⟨?_, ?_, ?_⟩
    · intro x hx
      exact mem_genLoop_dle 1000 d x (by simpa using hx)
    · intro hanch x hx
      rcases List.mem_cons.mp hx with hx | hx
      · rw [hx]; exact hanch
      · exact mem_genLoop_dle 1000 d x hx
    · intro hnone x hx
      rcases List.mem_cons.mp hx with hx | hx
      · rw [hx]
        subst hnone
        exact sod_dle_addYears hv
      · exact mem_genLoop_dle 1000 d x hx
  · refine ⟨by simp, ?_, ?_⟩
    · intro hanch x hx
      rcases List.mem_cons.mp hx with hx | hx
      · rw [hx]; exact hanch
      · simp at hx
    · intro hnone x hx
      rcases List.mem_cons.mp hx with hx | hx
      · rw [hx]
        subst hnone
        exact sod_dle_addYears hv
      · simp at hx

/-- C3 amended witness at a weekly expansion under the default horizon. -/
theorem c3_horizon_amended_witness :
    (∀ x ∈ (generateRecurringDates ⟨2024, 1, 1, 0⟩ "weekly" 2 none).tail,
        dle x (effectiveHorizon ⟨2024, 1, 1, 0⟩ none)) ∧
      (dle (startOfDay ⟨2024, 1, 1, 0⟩) (effectiveHorizon ⟨2024, 1, 1, 0⟩ none) →
        ∀ x ∈ generateRecurringDates ⟨2024, 1, 1, 0⟩ "weekly" 2 none,
          dle x (effectiveHorizon ⟨2024, 1, 1, 0⟩ none)) ∧
      ((none : Option DateTime) = none →
        ∀ x ∈ generateRecurringDates ⟨2024, 1, 1, 0⟩ "weekly" 2 none,
          dle x (effectiveHorizon ⟨2024, 1, 1, 0⟩ none)) :=
  c3_horizon_amended ⟨2024, 1, 1, 0⟩ "weekly" 2 none (by decide)

/-- C9: the expansion loop always terminates within the 1000-iteration
ceiling, so the output never exceeds 1001 elements; and under the default
one-year horizon (any interval, in particular any interval ≥ 1) the loop
stops by passing the horizon after at most 732 iterations — the ceiling is
never reached. -/
theorem c9_termination (d : DateTime) (pat : String) (i : Int)
    (hz : Option DateTime) (hv : d.Valid) :
    (generateRecurringDates d pat i hz).length ≤ 1001 ∧
      (1 ≤ i → hz = none →
        genIters (stepOf pat (safeInterval i)) (effectiveHorizon d hz)
          1000 d < 1000) := by
  constructor
  · unfold generateRecurringDates
    split_ifs with hp
    · have := @genLoop_length_le (stepOf pat (safeInterval i))
        (effectiveHorizon d hz) 1000 d
      simp only [List.length_cons]
      omega
    · simp
  · intro _ hnone
    subst hnone
    have hs : ∀ z : DateTime, z.Valid →
        (stepOf pat (safeInterval i) z).Valid ∧
          z.toAbsMin + 1440 ≤ (stepOf pat (safeInterval i) z).toAbsMin := by
      intro z hzv
      exact ⟨(stepOf_spec pat (safeInterval_pos i) hzv).1,
        stepOf_absMin pat (safeInterval_pos i) hzv⟩
    have hbound := @genIters_le (stepOf pat (safeInterval i))
      (effectiveHorizon d none) hs 1000 d hv
    have hmax : (effectiveHorizon d none).toAbsMin ≤ d.toAbsMin + 1440 * 732 :=
      toAbsMin_addYears_le hv
    omega

/-- C9 witness at a daily expansion under the default horizon. -/
theorem c9_termination_witness :
    (⟨2024, 1, 10, 600⟩ : DateTime).Valid ∧
    ((generateRecurringDates ⟨2024, 1, 10, 600⟩ "daily" 1 none).length ≤ 1001 ∧
      ((1 : Int) ≤ 1 → (none : Option DateTime) = none →
        genIters (stepOf "daily" (safeInterval 1))
          (effectiveHorizon ⟨2024, 1, 10, 600⟩ none) 1000
          ⟨2024, 1, 10, 600⟩ < 1000)) :=
  ⟨by decide, c9_termination ⟨2024, 1, 10, 600⟩ "daily" 1 none (by decide)⟩

/-- C10: an event with `recurring = true` but `recurrencePattern = "none"`
falls into the non-recurring branch of `getEventsForDate`: it occurs exactly
on the calendar day of its stored date, with no expansion. -/
theorem c10_recurring_none (e : Event) (evs : List Event) (q now : DateTime)
    (y m dd : Nat) (hr : e.recurring = true)
    (hp : e.recurrencePattern = "none") (hd : e.date = DateStr.valid y m dd) :
    e ∈ getEventsForDate evs q now ↔
      e ∈ evs ∧ isSameDay ⟨y, m, dd, 0⟩ q = true := by
  have hocc : occursPred e q now = isSameDay ⟨y, m, dd, 0⟩ q := by
    unfold occursPred
    rw [hr, hp, hd]
    simp [parseDate]
  simp only [getEventsForDate, List.mem_filter, hocc]

/-- C10 witness: such an event is listed on its stored day and not expanded. -/
theorem c10_recurring_none_witness :
    (⟨"w", DateStr.valid 2024 3 5, some 540, some 600, true, "none", 1⟩ : Event)
        ∈ getEventsForDate
          [⟨"w", DateStr.valid 2024 3 5, some 540, some 600, true, "none", 1⟩]
          ⟨2024, 3, 5, 0⟩ ⟨2024, 7, 1, 0⟩ ↔
      (⟨"w", DateStr.valid 2024 3 5, some 540, some 600, true, "none", 1⟩ : Event)
          ∈ [⟨"w", DateStr.valid 2024 3 5, some 540, some 600, true, "none", 1⟩]
        ∧ isSameDay ⟨2024, 3, 5, 0⟩ ⟨2024, 3, 5, 0⟩ = true :=
  c10_recurring_none _ _ ⟨2024, 3, 5, 0⟩ ⟨2024, 7, 1, 0⟩ 2024 3 5
    rfl rfl rfl

/-- C1 counterexample: an event whose stored date string does not parse is
NOT absent from every query date — `parseDate` substitutes `new Date()`, so
the event is reported on the current calendar day. -/
theorem c1_counterexample :
    (⟨2024, 1, 10, 0⟩ : DateTime).Valid ∧
    (⟨"e1", DateStr.malformed, some 540, some 600, false, "none", 1⟩ : Event)
      ∈ getEventsForDate
        [⟨"e1", DateStr.malformed, some 540, some 600, false, "none", 1⟩]
        ⟨2024, 1, 10, 0⟩ ⟨2024, 1, 10, 300⟩ := by
  decide

/-- C1 (amended): an event with an unparseable stored date is not dropped and
no error reaches the caller; instead `parseDate` falls back to the current
instant, so a non-recurring such event is reported exactly on the current
calendar day (present for a query on the wall-clock day, absent otherwise). -/
theorem c1_malformed_amended (e : Event) (evs : List Event) (q now : DateTime)
    (hd : e.date = DateStr.malformed)
    (hnr : e.recurring = false ∨ e.recurrencePattern = "none") :
    e ∈ getEventsForDate evs q now ↔ e ∈ evs ∧ isSameDay now q = true := by
  have hocc : occursPred e q now = isSameDay now q := by
    unfold occursPred
    rcases hnr with h | h <;> rw [h, hd] <;> simp [parseDate]
  simp only [getEventsForDate, List.mem_filter, hocc]

/-- C1 amended witness: present on the wall-clock day, absent the day after. -/
theorem c1_malformed_amended_witness :
    ((⟨"e1", DateStr.malformed, some 540, some 600, false, "none", 1⟩ : Event)
        ∈ getEventsForDate
          [⟨"e1", DateStr.malformed, some 540, some 600, false, "none", 1⟩]
          ⟨2024, 1, 10, 0⟩ ⟨2024, 1, 10, 300⟩ ↔
      (⟨"e1", DateStr.malformed, some 540, some 600, false, "none", 1⟩ : Event)
          ∈ [⟨"e1", DateStr.malformed, some 540, some 600, false, "none", 1⟩]
        ∧ isSameDay ⟨2024, 1, 10, 300⟩ ⟨2024, 1, 10, 0⟩ = true) :=
  c1_malformed_amended _ _ ⟨2024, 1, 10, 0⟩ ⟨2024, 1, 10, 300⟩ rfl
    (Or.inl rfl)

/-- C2 counterexample: two runs of `getEventsForDate` with identical
arguments but different wall-clock times disagree on an event whose date
string is malformed, so the claimed wall-clock independence fails. -/
theorem c2_counterexample :
    getEventsForDate
        [⟨"e1", DateStr.malformed, some 540, some 600, false, "none", 1⟩]
        ⟨2024, 1, 10, 0⟩ ⟨2024, 1, 10, 300⟩ ≠
      getEventsForDate
        [⟨"e1", DateStr.malformed, some 540, some 600, false, "none", 1⟩]
        ⟨2024, 1, 10, 0⟩ ⟨2024, 1, 11, 300⟩ := by
  decide

theorem conflictPred_malformed {ne : Event} {s en now : DateTime} {ev : Event}
    (h : ev.date = DateStr.malformed) :
    conflictPred ne s en now ev = false := by
  unfold conflictPred
  rw [h]
  dsimp only
  split_ifs <;> rfl

/-- C2 (amended): `getEventsForDate` is wall-clock-independent whenever every
stored date string parses (with a malformed date string `parseDate`
substitutes the current time, see the C2 counterexample), and
`checkEventConflicts` is wall-clock-independent unconditionally (the
substituted current time is always discarded by the later time-validity
guard). -/
theorem c2_determinism_amended :
    (∀ (evs : List Event) (q now1 now2 : DateTime),
      (∀ e ∈ evs, e.date ≠ DateStr.malformed) →
      getEventsForDate evs q now1 = getEventsForDate evs q now2) ∧
    (∀ (ne : Event) (evs : List Event) (now1 now2 : DateTime),
      checkEventConflicts ne evs now1 = checkEventConflicts ne evs now2) := by
  constructor
  · intro evs q now1 now2 hall
    unfold getEventsForDate
    apply List.filter_congr
    intro e he
    cases hed : e.date with
    | malformed => exact absurd hed (hall e he)
    | valid y m dd =>
      unfold occursPred
      rw [hed]
      rfl
  · intro ne evs now1 now2
    cases hnd : ne.date with
    | malformed =>
      unfold checkEventConflicts
      rw [hnd]
      rfl
    | valid y m dd =>
      cases hst : ne.startTime with
      | none =>
        unfold checkEventConflicts
        rw [hnd, hst]
        rfl
      | some s1 =>
        cases het : ne.endTime with
        | none =>
          unfold checkEventConflicts
          rw [hnd, hst, het]
          rfl
        | some e1 =>
          unfold checkEventConflicts
          rw [hnd, hst, het]
          simp only [combineDT]
          apply List.filter_congr
          intro ev _
          cases hed : ev.date with
          | malformed =>
            rw [conflictPred_malformed hed, conflictPred_malformed hed]
          | valid a b c =>
            unfold conflictPred
            rw [hed, hnd]
            rfl

/-- C2 amended witness at a two-event list with parseable dates. -/
theorem c2_determinism_amended_witness :
    (∀ e ∈ [(⟨"a", DateStr.valid 2024 3 5, some 540, some 600, false, "none",
              1⟩ : Event),
            ⟨"b", DateStr.valid 2024 3 6, some 60, some 120, true, "daily", 1⟩],
        e.date ≠ DateStr.malformed) ∧
    getEventsForDate
        [⟨"a", DateStr.valid 2024 3 5, some 540, some 600, false, "none", 1⟩,
         ⟨"b", DateStr.valid 2024 3 6, some 60, some 120, true, "daily", 1⟩]
        ⟨2024, 3, 5, 0⟩ ⟨2024, 1, 1, 0⟩ =
      getEventsForDate
        [⟨"a", DateStr.valid 2024 3 5, some 540, some 600, false, "none", 1⟩,
         ⟨"b", DateStr.valid 2024 3 6, some 60, some 120, true, "daily", 1⟩]
        ⟨2024, 3, 5, 0⟩ ⟨2030, 12, 31, 100⟩ :=
  ⟨by decide,
    c2_determinism_amended.1 _ ⟨2024, 3, 5, 0⟩ ⟨2024, 1, 1, 0⟩
      ⟨2030, 12, 31, 100⟩ (by decide)⟩

/-- C5: an existing event is excluded from the conflict list whenever its id
equals the candidate's id or its literal stored date is a different calendar
day than the candidate's; and the recurrence fields of the existing events
are never consulted (so recurring events are not expanded — one whose anchor
day differs is excluded even if the candidate's day is among its recurring
occurrences). -/
theorem c5_exclusions :
    (∀ (ne : Event) (evs : List Event) (now : DateTime) (e : Event),
      (e.id = ne.id ∨
        ∃ y1 m1 d1 y2 m2 d2, e.date = DateStr.valid y1 m1 d1 ∧
          ne.date = DateStr.valid y2 m2 d2 ∧
          (y1, m1, d1) ≠ (y2, m2, d2)) →
      e ∉ checkEventConflicts ne evs now) ∧
    (∀ (b : Bool) (p : String) (ne : Event) (evs : List Event)
        (now : DateTime),
      checkEventConflicts ne
          (evs.map fun e => { e with recurring := b, recurrencePattern := p })
          now =
        (checkEventConflicts ne evs now).map
          fun e => { e with recurring := b, recurrencePattern := p }) := by
  constructor
  · intro ne evs now e hexc hmem
    unfold checkEventConflicts at hmem
    rcases hcs : combineDT ne.date ne.startTime with _ | s
    · rw [hcs] at hmem
      simp at hmem
    · rcases hce : combineDT ne.date ne.endTime with _ | en
      · rw [hcs, hce] at hmem
        simp at hmem
      · rw [hcs, hce] at hmem
        have hpred := (List.mem_filter.mp hmem).2
        rcases hexc with hid | ⟨y1, m1, d1, y2, m2, d2, he, hne2, hneq⟩
        · unfold conflictPred at hpred
          rw [hid] at hpred
          simp at hpred
        · have hneq3 : ¬(y1 = y2 ∧ m1 = m2 ∧ d1 = d2) := by
            intro ⟨a, b, c⟩
            exact hneq (by rw [a, b, c])
          have hsd : isSameDay ⟨y1, m1, d1, 0⟩ ⟨y2, m2, d2, 0⟩ = false := by
            simp [isSameDay]
            tauto
          unfold conflictPred at hpred
          rw [he, hne2] at hpred
          dsimp only at hpred
          rw [parseDate_valid, parseDate_valid, hsd] at hpred
          simp at hpred
  · intro b p ne evs now
    unfold checkEventConflicts
    rcases combineDT ne.date ne.startTime with _ | s
    · rfl
    · rcases combineDT ne.date ne.endTime with _ | en
      · rfl
      · dsimp only
        rw [List.filter_map]
        congr 1

/-- C5 witness: a same-id candidate and a recurring different-day event are
both excluded, and the recurrence flags are inert. -/
theorem c5_exclusions_witness :
    ((⟨"a", DateStr.valid 2024 3 5, some 540, some 600, true, "daily", 1⟩ :
        Event).id = "a" ∨
      ∃ y1 m1 d1 y2 m2 d2,
        (⟨"a", DateStr.valid 2024 3 5, some 540, some 600, true, "daily", 1⟩ :
          Event).date = DateStr.valid y1 m1 d1 ∧
        (⟨"n", DateStr.valid 2024 3 6, some 540, some 600, false, "none", 1⟩ :
          Event).date = DateStr.valid y2 m2 d2 ∧
        (y1, m1, d1) ≠ (y2, m2, d2)) ∧
    (⟨"a", DateStr.valid 2024 3 5, some 540, some 600, true, "daily", 1⟩ :
        Event) ∉
      checkEventConflicts
        ⟨"n", DateStr.valid 2024 3 6, some 540, some 600, false, "none", 1⟩
        [⟨"a", DateStr.valid 2024 3 5, some 540, some 600, true, "daily", 1⟩]
        ⟨2024, 1, 1, 0⟩ :=
  ⟨Or.inr ⟨2024, 3, 5, 2024, 3, 6, rfl, rfl, by decide⟩,
    c5_exclusions.1 _ _ ⟨2024, 1, 1, 0⟩ _
      (Or.inr ⟨2024, 3, 5, 2024, 3, 6, rfl, rfl, by decide⟩)⟩

theorem dlt_same_day (y m dd a b : Nat) :
    dlt ⟨y, m, dd, a⟩ ⟨y, m, dd, b⟩ ↔ a < b := by
  show toAbsMin ⟨y, m, dd, a⟩ < toAbsMin ⟨y, m, dd, b⟩ ↔ a < b
  rw [toAbsMin_def, toAbsMin_def, toDays_mk, toDays_mk]
  dsimp only
  omega

/-- C6: for two same-day events with well-formed times, membership in the
conflict list is exactly the half-open overlap test
`candidateStart < otherEnd AND candidateEnd > otherStart`; hence
`[09:00,10:00)` does not conflict with `[10:00,11:00)`, `[09:00,10:01)`
does, and a nested interval conflicts with its container. -/
theorem c6_half_open (ne e : Event) (evs : List Event) (now : DateTime)
    (y m dd s1 e1 s2 e2 : Nat)
    (hvd : (⟨y, m, dd, 0⟩ : DateTime).Valid)
    (ht1 : s1 < 1440) (ht2 : e1 < 1440) (ht3 : s2 < 1440) (ht4 : e2 < 1440)
    (hid : e.id ≠ ne.id)
    (hnd : ne.date = DateStr.valid y m dd) (hed : e.date = DateStr.valid y m dd)
    (hns : ne.startTime = some s1) (hnee : ne.endTime = some e1)
    (hes : e.startTime = some s2) (hee : e.endTime = some e2) :
    e ∈ checkEventConflicts ne evs now ↔
      e ∈ evs ∧ (s1 < e2 ∧ e1 > s2) := by
  have hbe : (e.id == ne.id) = false := by
    simp [hid]
  have hsame : isSameDay ⟨y, m, dd, 0⟩ ⟨y, m, dd, 0⟩ = true := by
    simp [isSameDay]
  unfold checkEventConflicts
  rw [hnd, hns, hnee]
  dsimp only [combineDT]
  rw [List.mem_filter]
  have hpred : conflictPred ne ⟨y, m, dd, s1⟩ ⟨y, m, dd, e1⟩ now e =
      (decide (s1 < e2) && decide (s2 < e1)) := by
    unfold conflictPred
    rw [hbe, hed, hnd, hes, hee]
    simp only [parseDate_valid, combineDT, hsame, Bool.not_true, Bool.false_eq_true,
      if_false, Bool.if_false_left]
    simp [dlt_same_day]
  rw [hpred]
  simp

/-- C6 witness at the spec's boundary example: candidate `[09:00,10:01)`
against existing `[10:00,11:00)` on the same date. -/
theorem c6_half_open_witness :
    ((⟨2024, 3, 5, 0⟩ : DateTime).Valid ∧ (540 : Nat) < 1440 ∧
        (601 : Nat) < 1440 ∧ (600 : Nat) < 1440 ∧ (660 : Nat) < 1440) ∧
    ((⟨"a", DateStr.valid 2024 3 5, some 600, some 660, false, "none", 1⟩ :
        Event) ∈
      checkEventConflicts
        ⟨"n", DateStr.valid 2024 3 5, some 540, some 601, false, "none", 1⟩
        [⟨"a", DateStr.valid 2024 3 5, some 600, some 660, false, "none", 1⟩]
        ⟨2024, 1, 1, 0⟩ ↔
      (⟨"a", DateStr.valid 2024 3 5, some 600, some 660, false, "none", 1⟩ :
          Event) ∈
        [⟨"a", DateStr.valid 2024 3 5, some 600, some 660, false, "none", 1⟩]
        ∧ ((540 : Nat) < 660 ∧ (601 : Nat) > 600)) :=
  ⟨⟨by decide, by decide, by decide, by decide, by decide⟩,
    c6_half_open
      ⟨"n", DateStr.valid 2024 3 5, some 540, some 601, false, "none", 1⟩
      ⟨"a", DateStr.valid 2024 3 5, some 600, some 660, false, "none", 1⟩
      _ ⟨2024, 1, 1, 0⟩ 2024 3 5 540 601 600 660 (by decide) (by decide)
      (by decide) (by decide) (by decide) (by decide) rfl rfl rfl rfl rfl rfl⟩
